import Mathlib

/-!
Verification of the analyzer core of `ai-sast-tool` (`src/analyzer/analyzer.py`).

The Python source is shallowly embedded below: pure functions become Lean
functions, the stateful token cycle becomes explicit position passing, and
Python exceptions become `Except` values.  Effects that matter to the claims
(request attempts, retry sleeps, rate-limit passages) are recorded as explicit
event traces.  External collaborators (filesystem walk results, the remote
completion endpoint) are inputs: a list of discovered files with their read
outcomes, and a response oracle.
-/

set_option autoImplicit false

universe u

/-- Python exceptions relevant to the analyzer: the three network exception
classes caught by `retry` and `process_code`, `json.JSONDecodeError`,
`StopIteration` (raised by `next` on an exhausted iterator), `AttributeError`
(raised by `.get` on a non-dict), `TypeError` (raised by `list.extend` of a
non-iterable), and a catch-all for other `Exception` subclasses. -/
inductive PyExc where
  | httpError (msg : String)
  | connectionError (msg : String)
  | timeout (msg : String)
  | jsonDecodeError
  | stopIteration
  | attributeError
  | typeError
  | otherError (msg : String)
deriving DecidableEq, Repr

/-- The `(HTTPError, ConnectionError, Timeout)` tuple used both by the
`@retry` decoration of `process_code` and by its internal `except` clause. -/
def isNetwork : PyExc → Bool
  | .httpError _ => true
  | .connectionError _ => true
  | .timeout _ => true
  | _ => false

/-- `str(e)` for the exception messages interpolated into the synthetic
error strings of `process_code`. -/
def excMsg : PyExc → String
  | .httpError m => m
  | .connectionError m => m
  | .timeout m => m
  | .jsonDecodeError => "JSONDecodeError"
  | .stopIteration => "StopIteration"
  | .attributeError => "AttributeError"
  | .typeError => "TypeError"
  | .otherError m => m

/-- `true` exactly on `Except.ok`; Python control flow that did not raise. -/
def exceptOk {α : Type u} : Except PyExc α → Bool
  | .ok _ => true
  | .error _ => false

/-- Python values produced by `json.loads`: `None`, booleans, (integer)
numbers, strings, lists and dicts. -/
inductive Json where
  | null
  | bool (b : Bool)
  | num (n : Int)
  | str (s : String)
  | arr (elems : List Json)
  | obj (entries : List (String × Json))

/-- The character `"` (34). -/
def quoteCh : Char := Char.ofNat 34

/-- The character `\` (92). -/
def backslashCh : Char := Char.ofNat 92

/-- The character `{` (123). -/
def lbraceCh : Char := Char.ofNat 123

/-- The character `}` (125). -/
def rbraceCh : Char := Char.ofNat 125

/-- JSON whitespace: space, tab, line feed, carriage return. -/
def isWsCh (c : Char) : Bool :=
  c = ' ' || c = Char.ofNat 9 || c = Char.ofNat 10 || c = Char.ofNat 13

/-- Drop leading JSON whitespace. -/
def skipWs : List Char → List Char
  | [] => []
  | c :: cs => if isWsCh c then skipWs cs else c :: cs

/-- ASCII decimal digit test. -/
def isDigitCh (c : Char) : Bool := decide ('0' ≤ c) && decide (c ≤ '9')

/-- Value of an ASCII decimal digit. -/
def digitVal (c : Char) : Nat := c.toNat - 48

/-- Split off a maximal run of leading decimal digits. -/
def takeDigits : List Char → List Char × List Char
  | [] => ([], [])
  | c :: cs =>
    if isDigitCh c then
      let r := takeDigits cs
      (c :: r.1, r.2)
    else ([], c :: cs)

/-- Numeric value of a digit run. -/
def digitsToNat (ds : List Char) : Nat :=
  ds.foldl (fun a c => a * 10 + digitVal c) 0

/-- Translation of a JSON string escape character (the character after `\`).
`\u` escapes are outside the modelled fragment. -/
def escCharOf (c : Char) : Option Char :=
  if c = quoteCh then some quoteCh
  else if c = backslashCh then some backslashCh
  else if c = '/' then some '/'
  else if c = 'n' then some (Char.ofNat 10)
  else if c = 't' then some (Char.ofNat 9)
  else if c = 'r' then some (Char.ofNat 13)
  else if c = 'b' then some (Char.ofNat 8)
  else if c = 'f' then some (Char.ofNat 12)
  else none

/-- Parse the body of a JSON string (the opening quote already consumed),
returning the decoded characters and the rest of the input.  Fuel-indexed so
that it is structurally recursive and reduces definitionally. -/
def parseStringBody : Nat → List Char → Option (List Char × List Char)
  | 0, _ => none
  | _ + 1, [] => none
  | fuel + 1, c :: cs =>
    if c = quoteCh then some ([], cs)
    else if c = backslashCh then
      match cs with
      | [] => none
      | e :: cs2 =>
        match escCharOf e with
        | none => none
        | some r =>
          match parseStringBody fuel cs2 with
          | none => none
          | some (body, rest) => some (r :: body, rest)
    else
      match parseStringBody fuel cs with
      | none => none
      | some (body, rest) => some (c :: body, rest)

/-- Parser modes: a single value, the items of an array after at least one
item is required, or the members of an object after at least one member is
required.  Folding the mutually recursive grammar into one fuel-indexed
function keeps the parser structurally recursive. -/
inductive PMode where
  | value
  | arrItems (acc : List Json)
  | objItems (acc : List (String × Json))

/-- One fuel-indexed step of the JSON parser: parse a value, the remaining
items of an array, or the remaining members of an object, returning the
parsed value and the unconsumed input. -/
def parseStep : Nat → PMode → List Char → Option (Json × List Char)
  | 0, _, _ => none
  | fuel + 1, PMode.value, cs =>
    match skipWs cs with
    | [] => none
    | c :: rest =>
      if c = lbraceCh then
        match skipWs rest with
        | c2 :: r2 => if c2 = rbraceCh then some (.obj [], r2) else parseStep fuel (.objItems []) rest
        | [] => none
      else if c = '[' then
        match skipWs rest with
        | ']' :: r2 => some (.arr [], r2)
        | _ => parseStep fuel (.arrItems []) rest
      else if c = quoteCh then
        match parseStringBody (rest.length + 1) rest with
        | some (body, r2) => some (.str (String.mk body), r2)
        | none => none
      else if c = 'n' then
        match rest with
        | 'u' :: 'l' :: 'l' :: r2 => some (.null, r2)
        | _ => none
      else if c = 't' then
        match rest with
        | 'r' :: 'u' :: 'e' :: r2 => some (.bool true, r2)
        | _ => none
      else if c = 'f' then
        match rest with
        | 'a' :: 'l' :: 's' :: 'e' :: r2 => some (.bool false, r2)
        | _ => none
      else if c = '-' then
        match takeDigits rest with
        | ([], _) => none
        | (ds, r2) => some (.num (-(digitsToNat ds : Int)), r2)
      else if isDigitCh c then
        match takeDigits (c :: rest) with
        | (ds, r2) => some (.num (digitsToNat ds), r2)
      else none
  | fuel + 1, PMode.arrItems acc, cs =>
    match parseStep fuel .value cs with
    | none => none
    | some (v, r) =>
      match skipWs r with
      | ',' :: r2 => parseStep fuel (.arrItems (v :: acc)) r2
      | ']' :: r2 => some (.arr (v :: acc).reverse, r2)
      | _ => none
  | fuel + 1, PMode.objItems acc, cs =>
    match skipWs cs with
    | [] => none
    | c :: rest =>
      if c = quoteCh then
        match parseStringBody (rest.length + 1) rest with
        | none => none
        | some (keyChars, r1) =>
          match skipWs r1 with
          | ':' :: r2 =>
            match parseStep fuel .value r2 with
            | none => none
            | some (v, r3) =>
              match skipWs r3 with
              | ',' :: r4 => parseStep fuel (.objItems ((String.mk keyChars, v) :: acc)) r4
              | c2 :: r4 =>
                if c2 = rbraceCh then some (.obj ((String.mk keyChars, v) :: acc).reverse, r4)
                else none
              | [] => none
          | _ => none
      else none

/-- Model of Python's `json.loads` on the JSON fragment exercised by the
analyzer: `null`/`true`/`false`, integer numbers, strings with single-character
escapes, arrays and objects.  Decode failure is `json.JSONDecodeError`.
(Fractional/exponent numbers and `\u` escapes are outside the fragment; no
claim depends on them.) -/
def jsonLoads (s : String) : Except PyExc Json :=
  match parseStep (3 * s.length + 16) .value s.data with
  | some (v, rest) => if skipWs rest = [] then .ok v else .error .jsonDecodeError
  | none => .error .jsonDecodeError

/-- Python `dict` lookup for a dict built by `json.loads` from an object with
entries `kvs` in textual order: a duplicated key keeps its last value. -/
def dictLookupLast (kvs : List (String × Json)) (k : String) : Option Json :=
  match kvs with
  | [] => none
  | (k2, v) :: rest =>
    match dictLookupLast rest k with
    | some v2 => some v2
    | none => if k2 = k then some v else none

/-- Python `dict.get(k, d)`. -/
def dictGet (kvs : List (String × Json)) (k : String) (d : Json) : Json :=
  match dictLookupLast kvs k with
  | some v => v
  | none => d

/-- The key extracted by `parse_issues`. -/
def issuesKey : String := "issues"

/-- `CodeAnalyzer.parse_issues` (analyzer.py lines 209-224):
`json.loads(result).get('issues', [])` guarded by
`except json.JSONDecodeError: return []`.  A decode failure is caught and
yields `[]`; a successful decode to a dict yields the raw `issues` value
(default `[]`); a successful decode to any non-dict value makes `.get` raise
`AttributeError`, which no clause catches. -/
def parse_issues (result : String) : Except PyExc Json :=
  match jsonLoads result with
  | .error _ => .ok (Json.arr [])
  | .ok (Json.obj kvs) => .ok (dictGet kvs issuesKey (Json.arr []))
  | .ok _ => .error PyExc.attributeError

/-- `true` when `result` either fails JSON decoding or decodes to a JSON
object: exactly the inputs on which `parse_issues` does not raise. -/
def responseShapeOk (s : String) : Bool :=
  match jsonLoads s with
  | .error _ => true
  | .ok (Json.obj _) => true
  | .ok _ => false

/-- `CodeAnalyzer.split_content`, fuel-indexed worker.
`[content[i:i+max_length] for i in range(0, len(content), max_length)]`
takes successive slices of length `max_length` from the front until the
content is exhausted; with `fuel` at least the content length (and
`max_length` at least 1, as Python's `range` requires a nonzero step) the
fuel never runs out. -/
def splitGo : Nat → List Char → Nat → List (List Char)
  | _, [], _ => []
  | 0, _ :: _, _ => []
  | fuel + 1, c :: cs, m => (c :: cs).take m :: splitGo fuel ((c :: cs).drop m) m

/-- `CodeAnalyzer.split_content` (analyzer.py lines 134-142): slice the
content into consecutive windows of `max_length` characters.  (Python raises
`ValueError` for a zero `range` step; the function is only used and only
specified for `max_length ≥ 1`.) -/
def split_content (content : List Char) (max_length : Nat) : List (List Char) :=
  splitGo content.length content max_length

/-- `CodeAnalyzer.SUPPORTED_EXTENSIONS`. -/
def SUPPORTED_EXTENSIONS : List String :=
  [".py", ".js", ".java", ".cpp", ".c", ".cs", ".ts", ".php"]

/-- `CodeAnalyzer.is_supported_file`: `filename.endswith(SUPPORTED_EXTENSIONS)`
(a tuple argument to `endswith` succeeds when any member matches; `endswith`
is the character-suffix test). -/
def is_supported_file (filename : String) : Bool :=
  SUPPORTED_EXTENSIONS.any (fun ext => List.isSuffixOf ext.data filename.data)

/-- The `CodeAnalyzer` state: the configured directory, the token list
underlying `itertools.cycle(tokens)`, and the cycle's rotation position. -/
structure CodeAnalyzer where
  directory : String
  tokensList : List String
  pos : Nat
deriving DecidableEq, Repr

/-- `CodeAnalyzer.__init__` (analyzer.py lines 59-69): stores the directory,
builds `cycle(tokens)` — which Python constructs without error for any list,
including the empty one — and a `Groq` client (a third-party constructor that
never inspects `tokens`; modelled as succeeding).  No code path checks whether
`tokens` is empty, so construction always succeeds. -/
def mkCodeAnalyzer (directory : String) (tokens : List String) : Except PyExc CodeAnalyzer :=
  .ok ⟨directory, tokens, 0⟩

/-- `CodeAnalyzer.get_next_token` (analyzer.py lines 71-77):
`next(self.token_cycle)`.  `next` on `cycle([])` raises `StopIteration`;
otherwise it returns the elements round-robin. -/
def get_next_token (a : CodeAnalyzer) : Except PyExc (String × CodeAnalyzer) :=
  if h : a.tokensList = [] then .error PyExc.stopIteration
  else
    .ok (a.tokensList.get ⟨a.pos % a.tokensList.length,
          Nat.mod_lt _ (List.length_pos.mpr h)⟩,
         { a with pos := a.pos + 1 })

/-- Observable effects of the dispatch pipeline: one underlying API call
attempt (numbered), one `time.sleep(delay)` performed by `retry`, and one
passage through the `sleep_and_retry`/`limits(calls=5, period=1)` rate
limiter. -/
inductive Event where
  | attempt (k : Nat)
  | slept (delay : Nat)
  | rateCheck
deriving DecidableEq, Repr

/-- Number of underlying call attempts in a trace. -/
def attemptsOf (evs : List Event) : Nat :=
  (evs.filter (fun e => match e with | Event.attempt _ => true | _ => false)).length

/-- The retry sleeps of a trace, in order. -/
def sleepsOf (evs : List Event) : List Nat :=
  evs.filterMap (fun e => match e with | Event.slept d => some d | _ => none)

/-- Number of rate-limiter passages in a trace. -/
def rateChecksOf (evs : List Event) : Nat :=
  (evs.filter (fun e => match e with | Event.rateCheck => true | _ => false)).length

/-- The `retry(exceptions, tries, delay, backoff)` decorator (analyzer.py
lines 26-50) applied to a traced operation `f` whose outcome may vary from
attempt to attempt (`k` numbers the next attempt).  `while _tries > 1` calls
`f`; a caught matching exception sleeps `_delay`, decrements `_tries` and
multiplies `_delay` by `backoff`; a non-matching exception propagates; after
the loop the final call's outcome is returned or propagated unmodified. -/
def retry {α : Type u} (isMatch : PyExc → Bool)
    (f : Nat → List Event × Except PyExc α) :
    Nat → Nat → Nat → Nat → List Event × Except PyExc α
  | k, 0, _, _ => f k
  | k, 1, _, _ => f k
  | k, tries + 2, delay, backoff =>
    match f k with
    | (evs, .ok v) => (evs, .ok v)
    | (evs, .error e) =>
      if isMatch e then
        let r := retry isMatch f (k + 1) (tries + 1) (delay * backoff) backoff
        (evs ++ Event.slept delay :: r.1, r.2)
      else (evs, .error e)

/-- A bare traced call: attempt `k` of an operation whose outcomes are given
by the oracle `b`. -/
def rawAttempt {α : Type u} (b : Nat → Except PyExc α) (k : Nat) :
    List Event × Except PyExc α :=
  ([Event.attempt k], b k)

/-- The `@sleep_and_retry @limits(calls=5, period=1)` pair: block until the
5-calls-per-second window has capacity, then run the wrapped call once.  The
(single) passage through the limiter is recorded as a `rateCheck` event. -/
def limitsWrap {α : Type u} (p : List Event × Except PyExc α) :
    List Event × Except PyExc α :=
  (Event.rateCheck :: p.1, p.2)

/-- The body of `CodeAnalyzer.process_code` (analyzer.py lines 79-132): one
API call attempt whose outcome is drawn from the oracle `b`; a raised
network-class exception is caught by the internal
`except (HTTPError, ConnectionError, Timeout)` clause and converted to
`f"Network error: {e}"`, any other exception is caught by `except Exception`
and converted to `f"Error: {e}"`. -/
def processBody (b : Nat → Except PyExc String) (k : Nat) :
    List Event × Except PyExc String :=
  ([Event.attempt k],
   match b k with
   | .ok s => .ok s
   | .error e =>
     if isNetwork e then .ok ("Network error: " ++ excMsg e)
     else .ok ("Error: " ++ excMsg e))

/-- The decorator stack of `process_code` exactly as written in the source
(lines 79-82, applied bottom-up): `sleep_and_retry (limits (retry (·)))` —
the rate limiter is outermost, the retry wrapper sits inside it. -/
def process_code_pipeline (f : Nat → List Event × Except PyExc String) :
    List Event × Except PyExc String :=
  limitsWrap (retry isNetwork f 0 3 1 2)

/-- `CodeAnalyzer.process_code` as callers see it: the decorator stack
applied to the body. -/
def process_code (b : Nat → Except PyExc String) : List Event × Except PyExc String :=
  process_code_pipeline (processBody b)

/-- Python `summaries.extend(issues)`: extending a list with a list appends
its elements; with a string, its one-character strings; with a dict, its
keys; a number, boolean or `None` is not iterable and raises `TypeError`. -/
def pyExtend (acc : List Json) (v : Json) : Except PyExc (List Json) :=
  match v with
  | .arr xs => .ok (acc ++ xs)
  | .str s => .ok (acc ++ s.data.map (fun c => Json.str (String.mk [c])))
  | .obj kvs => .ok (acc ++ kvs.map (fun kv => Json.str kv.1))
  | _ => .error PyExc.typeError

/-- `CodeAnalyzer.collect_issues` (analyzer.py lines 193-207): for each chunk,
call `process_code` (whose returned response string is drawn from the oracle
`resp`, keyed by file path, token and chunk — the decorated call never raises,
see `process_code_never_raises`), parse it, and extend the summaries; an
exception raised by `parse_issues` or `extend` propagates. -/
def collect_issues (resp : String → String → List Char → String)
    (path tok : String) : List (List Char) → List Json → Except PyExc (List Json)
  | [], acc => .ok acc
  | c :: cs, acc =>
    match parse_issues (resp path tok c) with
    | .error e => .error e
    | .ok v =>
      match pyExtend acc v with
      | .error e => .error e
      | .ok acc2 => collect_issues resp path tok cs acc2

/-- One file produced by the `os.walk` traversal: its bare filename, its
joined path, and the outcome of `read_file` on it (the two-encoding read of
analyzer.py lines 153-166; any exception it lets escape is the error). -/
structure FileEntry where
  name : String
  path : String
  readResult : Except PyExc (List Char)

/-- `true` when `read_file` succeeds on the entry. -/
def readable (f : FileEntry) : Bool :=
  match f.readResult with
  | .ok _ => true
  | .error _ => false

/-- `true` when the oracle response parses to a list of findings, i.e.
`parse_issues` neither raises nor yields a non-list: the condition under
which `collect_issues` completes normally. -/
def goodResponse (r : String) : Bool :=
  match parse_issues r with
  | .ok (Json.arr _) => true
  | _ => false

/-- `CodeAnalyzer.analyze` (analyzer.py lines 168-191) over the walk result
`fs`: skip unsupported names; draw the next token (`StopIteration` aborts the
run — the call is outside any `try`); `try: read_file` — a read failure is
caught, logged and the file skipped; otherwise chunk the content when it
exceeds 5000 characters, collect the issues (an exception propagating from
`collect_issues` aborts the run) and call
`html_report.add_file_summary(file_path, summaries)`.  The result is the list
of `add_file_summary` calls made, in order, paired with the exception that
aborted the run, if any. -/
def analyzeGo (a : CodeAnalyzer) (resp : String → String → List Char → String) :
    List FileEntry → List (String × List Json) × Option PyExc
  | [] => ([], none)
  | f :: rest =>
    if is_supported_file f.name then
      match get_next_token a with
      | .error e => ([], some e)
      | .ok (tok, a2) =>
        match f.readResult with
        | .error _ => analyzeGo a2 resp rest
        | .ok content =>
          let chunks := if 5000 < content.length then split_content content 5000 else [content]
          match collect_issues resp f.path tok chunks [] with
          | .error e => ([], some e)
          | .ok summaries =>
            let r := analyzeGo a2 resp rest
            ((f.path, summaries) :: r.1, r.2)
    else analyzeGo a resp rest

/-- `CodeAnalyzer.analyze` from a freshly constructed analyzer. -/
def analyze (a : CodeAnalyzer) (fs : List FileEntry)
    (resp : String → String → List Char → String) :
    List (String × List Json) × Option PyExc :=
  analyzeGo a resp fs

/-- A transiently failing dispatch behavior: the first two attempts raise
`Timeout`, the third succeeds. -/
def bTimeout : Nat → Except PyExc String :=
  fun k => if k < 2 then .error (PyExc.timeout "request timed out") else .ok "done"

/-- A well-formed model response carrying no findings. -/
def respEmptyIssues : String := "\x7b\"issues\": []\x7d"

/-- A well-formed model response carrying two findings. -/
def respTwoIssues : String :=
  "\x7b\"issues\": [\x7b\"severity\": \"HIGH\", \"description\": \"bad\", \"line\": 3\x7d, \x7b\"severity\": \"LOW\", \"description\": \"fine\", \"line\": 7\x7d]\x7d"

/-- The findings array carried by `respTwoIssues`. -/
def issuesTwo : Json :=
  Json.arr
    [Json.obj [("severity", Json.str "HIGH"), ("description", Json.str "bad"),
               ("line", Json.num 3)],
     Json.obj [("severity", Json.str "LOW"), ("description", Json.str "fine"),
               ("line", Json.num 7)]]

/-- A walk result with two supported readable files, one unsupported file and
one supported file whose read fails. -/
def fsWitness : List FileEntry :=
  [⟨"a.py", "p/a.py", .ok "x".data⟩,
   ⟨"b.txt", "p/b.txt", .ok "y".data⟩,
   ⟨"c.js", "p/c.js", .error (PyExc.otherError "unreadable")⟩,
   ⟨"d.py", "p/d.py", .ok "z".data⟩]

/-- `true` when an attempt outcome is an exception that the retry
decorator's `exceptions` argument matches. -/
def isMatchFail {α : Type u} (isMatch : PyExc → Bool) : Except PyExc α → Bool
  | .error e => isMatch e
  | .ok _ => false

/-- `splitGo` on empty content yields no chunks, for any fuel. -/
theorem splitGo_nil (fuel m : Nat) : splitGo fuel [] m = [] := by
  cases fuel <;> rfl

/-- Reassembling the chunks of `splitGo` reproduces the content, given
enough fuel and a positive window. -/
theorem splitGo_flatten : ∀ (fuel : Nat) (c : List Char) (m : Nat),
    c.length ≤ fuel → 1 ≤ m → (splitGo fuel c m).flatten = c := by
  intro fuel
  induction fuel with
  | zero =>
    intro c m hc _
    have hnil : c = [] := List.eq_nil_of_length_eq_zero (Nat.le_zero.mp hc)
    subst hnil
    simp [splitGo_nil]
  | succ f ih =>
    intro c m hc hm
    cases c with
    | nil => simp [splitGo_nil]
    | cons a cs =>
      have hdrop : ((a :: cs).drop m).length ≤ f := by
        simp only [List.length_drop, List.length_cons]
        simp only [List.length_cons] at hc
        omega
      simp only [splitGo, List.flatten_cons]
      rw [ih _ m hdrop hm, List.take_append_drop]

/-- The number of chunks `splitGo` produces is `⌈length / m⌉`. -/
theorem splitGo_length : ∀ (fuel : Nat) (c : List Char) (m : Nat),
    c.length ≤ fuel → 1 ≤ m → (splitGo fuel c m).length = (c.length + m - 1) / m := by
  intro fuel
  induction fuel with
  | zero =>
    intro c m hc _
    have hnil : c = [] := List.eq_nil_of_length_eq_zero (Nat.le_zero.mp hc)
    subst hnil
    simp [splitGo_nil, Nat.div_eq_of_lt (show m - 1 < m by omega)]
  | succ f ih =>
    intro c m hc hm
    cases c with
    | nil => simp [splitGo_nil, Nat.div_eq_of_lt (show m - 1 < m by omega)]
    | cons a cs =>
      have hdrop : ((a :: cs).drop m).length ≤ f := by
        simp only [List.length_drop, List.length_cons]
        simp only [List.length_cons] at hc
        omega
      simp only [splitGo, List.length_cons]
      rw [ih _ m hdrop hm]
      simp only [List.length_drop, List.length_cons]
      have hrw : cs.length + 1 + m - 1 = cs.length + m := by omega
      rw [hrw, Nat.add_div_right _ (show 0 < m by omega)]
      rcases le_or_lt (cs.length + 1) m with hLm | hLm
      · have h0 : cs.length + 1 - m = 0 := by omega
        rw [h0, Nat.div_eq_of_lt (show 0 + m - 1 < m by omega),
            Nat.div_eq_of_lt (show cs.length < m by omega)]
      · have h2 : cs.length + 1 - m + m - 1 = cs.length := by omega
        rw [h2]

/-- Every chunk of `splitGo` except possibly the last has length exactly
`m`. -/
theorem splitGo_full_chunks : ∀ (fuel : Nat) (c : List Char) (m : Nat),
    c.length ≤ fuel → 1 ≤ m →
    ∀ i, i + 1 < (splitGo fuel c m).length →
      ((splitGo fuel c m).getD i []).length = m := by
  intro fuel
  induction fuel with
  | zero =>
    intro c m hc _ i hi
    have hnil : c = [] := List.eq_nil_of_length_eq_zero (Nat.le_zero.mp hc)
    subst hnil
    simp [splitGo_nil] at hi
  | succ f ih =>
    intro c m hc hm i hi
    cases c with
    | nil => simp [splitGo_nil] at hi
    | cons a cs =>
      have hdrop : ((a :: cs).drop m).length ≤ f := by
        simp only [List.length_drop, List.length_cons]
        simp only [List.length_cons] at hc
        omega
      cases i with
      | zero =>
        have hrest : splitGo f ((a :: cs).drop m) m ≠ [] := by
          intro hempty
          simp only [splitGo, hempty, List.length_cons, List.length_nil] at hi
          omega
        have hmlt : m < cs.length + 1 := by
          by_contra hcon
          push_neg at hcon
          have hnil2 : (a :: cs).drop m = [] :=
            List.drop_eq_nil_of_le (by simp only [List.length_cons]; omega)
          rw [hnil2, splitGo_nil] at hrest
          exact hrest rfl
        simp only [splitGo, List.getD_cons_zero, List.length_take, List.length_cons]
        omega
      | succ j =>
        simp only [splitGo, List.length_cons] at hi
        simp only [splitGo, List.getD_cons_succ]
        exact ih _ m hdrop hm j (by omega)

/-- The last chunk of `splitGo` has length at most `m`. -/
theorem splitGo_last_le : ∀ (fuel : Nat) (c : List Char) (m : Nat),
    c.length ≤ fuel → 1 ≤ m →
    ∀ ch, (splitGo fuel c m).getLast? = some ch → ch.length ≤ m := by
  intro fuel
  induction fuel with
  | zero =>
    intro c m hc _ ch hch
    have hnil : c = [] := List.eq_nil_of_length_eq_zero (Nat.le_zero.mp hc)
    subst hnil
    rw [splitGo_nil] at hch
    simp at hch
  | succ f ih =>
    intro c m hc hm ch hch
    cases c with
    | nil =>
      rw [splitGo_nil] at hch
      simp at hch
    | cons a cs =>
      have hdrop : ((a :: cs).drop m).length ≤ f := by
        simp only [List.length_drop, List.length_cons]
        simp only [List.length_cons] at hc
        omega
      simp only [splitGo] at hch
      cases hr : splitGo f ((a :: cs).drop m) m with
      | nil =>
        rw [hr] at hch
        simp only [List.getLast?_singleton, Option.some.injEq] at hch
        subst hch
        simp only [List.length_take, List.length_cons]
        omega
      | cons b rest =>
        rw [hr, List.getLast?_cons_cons] at hch
        exact ih _ m hdrop hm ch (by rw [hr]; exact hch)

/-- Content that fits in one window is returned as the single chunk. -/
theorem splitGo_single : ∀ (fuel : Nat) (c : List Char) (m : Nat),
    c.length ≤ fuel → 1 ≤ m → c ≠ [] → c.length ≤ m → splitGo fuel c m = [c] := by
  intro fuel c m hc hm hne hle
  cases c with
  | nil => exact absurd rfl hne
  | cons a cs =>
    cases fuel with
    | zero => simp at hc
    | succ f =>
      simp only [splitGo]
      rw [List.drop_eq_nil_of_le hle, splitGo_nil, List.take_of_length_le hle]

@[simp]
theorem attemptsOf_nil : attemptsOf [] = 0 := rfl

@[simp]
theorem attemptsOf_cons_attempt (k : Nat) (l : List Event) :
    attemptsOf (Event.attempt k :: l) = attemptsOf l + 1 := by
  simp [attemptsOf, List.filter_cons]

@[simp]
theorem attemptsOf_cons_slept (d : Nat) (l : List Event) :
    attemptsOf (Event.slept d :: l) = attemptsOf l := by
  simp [attemptsOf, List.filter_cons]

@[simp]
theorem attemptsOf_cons_rate (l : List Event) :
    attemptsOf (Event.rateCheck :: l) = attemptsOf l := by
  simp [attemptsOf, List.filter_cons]

@[simp]
theorem sleepsOf_nil : sleepsOf [] = [] := rfl

@[simp]
theorem sleepsOf_cons_attempt (k : Nat) (l : List Event) :
    sleepsOf (Event.attempt k :: l) = sleepsOf l := by
  simp [sleepsOf]

@[simp]
theorem sleepsOf_cons_slept (d : Nat) (l : List Event) :
    sleepsOf (Event.slept d :: l) = d :: sleepsOf l := by
  simp [sleepsOf]

@[simp]
theorem rateChecksOf_nil : rateChecksOf [] = 0 := rfl

@[simp]
theorem rateChecksOf_cons_attempt (k : Nat) (l : List Event) :
    rateChecksOf (Event.attempt k :: l) = rateChecksOf l := by
  simp [rateChecksOf, List.filter_cons]

@[simp]
theorem rateChecksOf_cons_slept (d : Nat) (l : List Event) :
    rateChecksOf (Event.slept d :: l) = rateChecksOf l := by
  simp [rateChecksOf, List.filter_cons]

@[simp]
theorem rateChecksOf_cons_rate (l : List Event) :
    rateChecksOf (Event.rateCheck :: l) = rateChecksOf l + 1 := by
  simp [rateChecksOf, List.filter_cons]

/-- Full characterization of `retry` over a bare attempt oracle, attempts
numbered from `k`: some `n` attempts happen with `1 ≤ n ≤ tries`; the result
is the `n`-th attempt's outcome unmodified; every non-final attempt failed
with a matching exception; if the retry budget was not exhausted the final
attempt did not fail with a matching exception; and the sleeps are
`delay * backoff ^ i` in order. -/
theorem retry_rawAttempt_spec {α : Type u} (isMatch : PyExc → Bool)
    (b : Nat → Except PyExc α) (backoff : Nat) :
    ∀ tries : Nat, 1 ≤ tries → ∀ (k delay : Nat)
      (r : List Event × Except PyExc α) (n : Nat),
      retry isMatch (rawAttempt b) k tries delay backoff = r →
      attemptsOf r.1 = n →
      1 ≤ n ∧ n ≤ tries ∧
      r.2 = b (k + (n - 1)) ∧
      (∀ i, i + 1 < n → isMatchFail isMatch (b (k + i)) = true) ∧
      (n < tries → isMatchFail isMatch (b (k + (n - 1))) = false) ∧
      sleepsOf r.1 = (List.range (n - 1)).map (fun i => delay * backoff ^ i) := by
  intro tries
  induction tries with
  | zero => intro h; omega
  | succ t ih =>
    intro _ k delay r n hr hn
    cases t with
    | zero =>
      subst hr
      simp only [retry, rawAttempt] at hn ⊢
      simp only [attemptsOf_cons_attempt, attemptsOf_nil, Nat.zero_add] at hn
      subst hn
      refine ⟨le_refl 1, le_refl 1, by simp, ?_, ?_, by simp⟩
      · intro i hi; omega
      · intro hlt; omega
    | succ t' =>
      cases hb : b k with
      | ok v =>
        have hr2 : r = ([Event.attempt k], .ok v) := by
          rw [← hr]
          simp only [retry, rawAttempt, hb]
        subst hr2
        simp only [attemptsOf_cons_attempt, attemptsOf_nil, Nat.zero_add] at hn
        subst hn
        refine ⟨le_refl 1, by omega, by simp [hb], ?_, ?_, by simp⟩
        · intro i hi; omega
        · intro _; simp [isMatchFail, hb]
      | error e =>
        cases hm : isMatch e with
        | false =>
          have hr2 : r = ([Event.attempt k], .error e) := by
            rw [← hr]
            simp only [retry, rawAttempt, hb, hm]
            rfl
          subst hr2
          simp only [attemptsOf_cons_attempt, attemptsOf_nil, Nat.zero_add] at hn
          subst hn
          refine ⟨le_refl 1, by omega, by simp [hb], ?_, ?_, by simp⟩
          · intro i hi; omega
          · intro _; simp [isMatchFail, hb, hm]
        | true =>
          have hr2 : r = (Event.attempt k :: Event.slept delay ::
              (retry isMatch (rawAttempt b) (k + 1) (t' + 1) (delay * backoff) backoff).1,
              (retry isMatch (rawAttempt b) (k + 1) (t' + 1) (delay * backoff) backoff).2) := by
            rw [← hr]
            simp only [retry, rawAttempt, hb, hm]
            rfl
          obtain ⟨ih1, ih2, ih3, ih4, ih5, ih6⟩ :=
            ih (by omega) (k + 1) (delay * backoff)
              (retry isMatch (rawAttempt b) (k + 1) (t' + 1) (delay * backoff) backoff)
              (attemptsOf (retry isMatch (rawAttempt b) (k + 1) (t' + 1) (delay * backoff) backoff).1)
              rfl rfl
          subst hr2
          simp only [attemptsOf_cons_attempt, attemptsOf_cons_slept] at hn
          cases hn' : attemptsOf
              (retry isMatch (rawAttempt b) (k + 1) (t' + 1) (delay * backoff) backoff).1 with
          | zero => rw [hn'] at ih1; omega
          | succ n'' =>
            rw [hn'] at ih1 ih2 ih3 ih5 ih6 hn
            subst hn
            refine ⟨by omega, by omega, ?_, ?_, ?_, ?_⟩
            · rw [ih3]
              congr 1
              omega
            · intro i hi
              cases i with
              | zero => simp [isMatchFail, hb, hm]
              | succ j =>
                have hj := ih4 j (by omega)
                have hidx : k + 1 + j = k + (j + 1) := by omega
                rwa [hidx] at hj
            · intro hlt
              have h5 := ih5 (by omega)
              have hidx : k + 1 + (n'' + 1 - 1) = k + (n'' + 1 + 1 - 1) := by omega
              rwa [hidx] at h5
            · simp only [sleepsOf_cons_attempt, sleepsOf_cons_slept, ih6]
              have hn1 : n'' + 1 + 1 - 1 = n'' + 1 := by omega
              have hn2 : n'' + 1 - 1 = n'' := by omega
              rw [hn1, hn2, List.range_succ_eq_map, List.map_cons, List.map_map]
              have hfun : ((fun i => delay * backoff ^ i) ∘ Nat.succ)
                  = fun i => delay * backoff * backoff ^ i := by
                funext i
                show delay * backoff ^ (i + 1) = delay * backoff * backoff ^ i
                rw [pow_succ]
                ring
              rw [hfun]
              simp

/-- `retry` over a bare attempt oracle never passes the rate limiter: its
trace holds no `rateCheck` events. -/
theorem rateChecksOf_retry_rawAttempt {α : Type u} (isMatch : PyExc → Bool)
    (b : Nat → Except PyExc α) :
    ∀ (tries k delay backoff : Nat),
      rateChecksOf (retry isMatch (rawAttempt b) k tries delay backoff).1 = 0 := by
  intro tries
  induction tries with
  | zero => intro k delay backoff; simp [retry, rawAttempt]
  | succ t ih =>
    intro k delay backoff
    cases t with
    | zero => simp [retry, rawAttempt]
    | succ t' =>
      cases hb : b k with
      | ok v => simp [retry, rawAttempt, hb]
      | error e =>
        cases hm : isMatch e with
        | false => simp [retry, rawAttempt, hb, hm]
        | true =>
          simp only [retry, rawAttempt, hb, hm]
          simp [ih]

/-- With a non-empty token list, `get_next_token` succeeds and only advances
the rotation position. -/
theorem get_next_token_ok (a : CodeAnalyzer) (h : a.tokensList ≠ []) :
    ∃ t, get_next_token a = .ok (t, { a with pos := a.pos + 1 }) := by
  refine ⟨a.tokensList.get
    ⟨a.pos % a.tokensList.length, Nat.mod_lt _ (List.length_pos.mpr h)⟩, ?_⟩
  unfold get_next_token
  rw [dif_neg h]

/-- When every response for a file parses to a list of findings,
`collect_issues` completes without raising. -/
theorem collect_issues_ok (resp : String → String → List Char → String)
    (path tok : String) (hg : ∀ c, goodResponse (resp path tok c) = true) :
    ∀ (chunks : List (List Char)) (acc : List Json),
      ∃ out, collect_issues resp path tok chunks acc = .ok out := by
  intro chunks
  induction chunks with
  | nil => intro acc; exact ⟨acc, rfl⟩
  | cons c cs ih =>
    intro acc
    have hgc := hg c
    unfold goodResponse at hgc
    cases hp : parse_issues (resp path tok c) with
    | error e => rw [hp] at hgc; simp at hgc
    | ok v =>
      rw [hp] at hgc
      cases v with
      | arr xs =>
        obtain ⟨out, hout⟩ := ih (acc ++ xs)
        exact ⟨out, by simp [collect_issues, hp, pyExtend, hout]⟩
      | null => simp at hgc
      | bool b2 => simp at hgc
      | num n2 => simp at hgc
      | str s2 => simp at hgc
      | obj kvs => simp at hgc

/-- The body of `process_code` never raises: its internal handlers convert
every caught exception into a returned string. -/
theorem processBody_ok (b : Nat → Except PyExc String) (k : Nat) :
    ∃ s, processBody b k = ([Event.attempt k], Except.ok s) := by
  cases hb : b k with
  | ok v => exact ⟨v, by simp [processBody, hb]⟩
  | error e =>
    refine ⟨if isNetwork e then "Network error: " ++ excMsg e
            else "Error: " ++ excMsg e, ?_⟩
    simp only [processBody, hb]
    cases isNetwork e <;> simp

/-- Because the body never raises, the `retry` layer of `process_code`
performs exactly one attempt and returns the body's first outcome. -/
theorem retry_processBody (b : Nat → Except PyExc String) :
    retry isNetwork (processBody b) 0 3 1 2 = processBody b 0 := by
  obtain ⟨s, hs⟩ := processBody_ok b 0
  rw [hs]
  simp only [retry, hs]

/-- General form of the per-file report invariant for `analyzeGo`: with a
non-empty token list and responses that all parse to finding lists, no
exception aborts the traversal and the `add_file_summary` calls are exactly
the supported readable files, in order. -/
theorem analyzeGo_spec (resp : String → String → List Char → String) :
    ∀ (fs : List FileEntry) (a : CodeAnalyzer),
      a.tokensList ≠ [] →
      (∀ f ∈ fs, ∀ t c, goodResponse (resp f.path t c) = true) →
      (analyzeGo a resp fs).2 = none ∧
      (analyzeGo a resp fs).1.map Prod.fst
        = (fs.filter (fun f => is_supported_file f.name && readable f)).map FileEntry.path := by
  intro fs
  induction fs with
  | nil => intro a _ _; exact ⟨rfl, rfl⟩
  | cons f rest ih =>
    intro a ht hg
    have hgrest : ∀ f2 ∈ rest, ∀ t c, goodResponse (resp f2.path t c) = true :=
      fun f2 hf2 => hg f2 (List.mem_cons_of_mem _ hf2)
    cases hs : is_supported_file f.name with
    | false =>
      have hrec := ih a ht hgrest
      simp only [analyzeGo, hs, Bool.false_eq_true, if_false, List.filter_cons,
        Bool.false_and]
      exact hrec
    | true =>
      obtain ⟨tok, hgt⟩ := get_next_token_ok a ht
      have ht2 : ({ a with pos := a.pos + 1 } : CodeAnalyzer).tokensList ≠ [] := ht
      cases hread : f.readResult with
      | error e =>
        have hrdf : readable f = false := by simp [readable, hread]
        have hrec := ih { a with pos := a.pos + 1 } ht2 hgrest
        have hfilter : (f :: rest).filter (fun f2 => is_supported_file f2.name && readable f2)
            = rest.filter (fun f2 => is_supported_file f2.name && readable f2) := by
          simp [List.filter_cons, hrdf]
        simp only [analyzeGo, hs, if_true, hgt, hread]
        rw [hfilter]
        exact hrec
      | ok content =>
        have hrdt : readable f = true := by simp [readable, hread]
        have hgf := hg f (List.mem_cons_self f rest)
        obtain ⟨out, hco⟩ := collect_issues_ok resp f.path tok (hgf tok)
          (if 5000 < content.length then split_content content 5000 else [content]) []
        have hrec := ih { a with pos := a.pos + 1 } ht2 hgrest
        have hfilter : (f :: rest).filter (fun f2 => is_supported_file f2.name && readable f2)
            = f :: rest.filter (fun f2 => is_supported_file f2.name && readable f2) := by
          simp [List.filter_cons, hs, hrdt]
        simp only [analyzeGo, hs, if_true, hgt, hread, hco]
        rw [hfilter]
        simp only [List.map_cons]
        exact ⟨hrec.1, by rw [hrec.2]⟩

/-- Claim C1 counterexample: a run over one supported, readable file whose
dispatcher response is the valid-JSON non-object `"[]"` makes no
`add_file_summary` call at all — `parse_issues` raises `AttributeError`,
which nothing in `analyze` catches, so the run aborts instead of emitting a
report with an empty findings list. -/
theorem analyze_aborts_on_nonobject_response :
    analyze ⟨"proj", ["tok"], 0⟩ [⟨"a.py", "proj/a.py", .ok "x".data⟩]
      (fun _ _ _ => "[]") = ([], some PyExc.attributeError) := rfl

/-- Claim C1 (amended): provided the token list is non-empty and every
dispatcher response parses to a list of findings (it fails JSON decoding, or
decodes to an object whose `issues` value — defaulting to `[]` — is a list),
every run of `analyze` makes exactly one `add_file_summary` call per file
that passes the extension allowlist and whose read succeeds, in traversal
order and even when the findings list is empty, makes no call for a file
whose read fails while continuing with the remaining files, and no exception
aborts the traversal. -/
theorem analyze_one_summary_per_readable_file (a : CodeAnalyzer) (fs : List FileEntry)
    (resp : String → String → List Char → String)
    (ht : a.tokensList ≠ [])
    (hg : ∀ f ∈ fs, ∀ t c, goodResponse (resp f.path t c) = true) :
    (analyze a fs resp).2 = none ∧
    (analyze a fs resp).1.map Prod.fst
      = (fs.filter (fun f => is_supported_file f.name && readable f)).map FileEntry.path :=
  analyzeGo_spec resp fs a ht hg

/-- Claim C1 witness: on a walk with two supported readable files, one
unsupported file and one supported unreadable file, exactly the two
supported readable paths are reported, in order, with no abort. -/
theorem analyze_one_summary_per_readable_file_witness :
    (⟨"p", ["t1", "t2"], 0⟩ : CodeAnalyzer).tokensList ≠ [] ∧
    ((analyze ⟨"p", ["t1", "t2"], 0⟩ fsWitness (fun _ _ _ => respEmptyIssues)).2 = none ∧
     (analyze ⟨"p", ["t1", "t2"], 0⟩ fsWitness (fun _ _ _ => respEmptyIssues)).1.map Prod.fst
       = (fsWitness.filter (fun f => is_supported_file f.name && readable f)).map
           FileEntry.path) :=
  ⟨by simp, analyze_one_summary_per_readable_file ⟨"p", ["t1", "t2"], 0⟩ fsWitness
    (fun _ _ _ => respEmptyIssues) (by simp) (fun f _ t c => rfl)⟩

/-- Claim C2 counterexample: constructing the analyzer over the empty token
list succeeds — `cycle([])` and the client constructor raise nothing and no
code checks for emptiness — so the failure is not fatal at construction. -/
theorem mk_analyzer_accepts_empty_tokens :
    mkCodeAnalyzer "project" [] = .ok ⟨"project", [], 0⟩ := rfl

/-- Claim C2 (amended): with an empty token list a `CodeAnalyzer` instance
is still created; the failure is deferred to the first `get_next_token`
call, which raises `StopIteration`. -/
theorem construction_defers_empty_token_failure (d : String) (p : Nat) :
    mkCodeAnalyzer d [] = .ok ⟨d, [], 0⟩ ∧
    get_next_token ⟨d, [], p⟩ = .error PyExc.stopIteration :=
  ⟨rfl, rfl⟩

/-- Claim C3 counterexample: the source's decorator stack applied to a
dispatch operation that raises `Timeout` on its first two attempts makes
three attempts but passes the rate limiter exactly once — the second and
third (retried) attempts are not individually rate-limited, refuting the
claimed retry-wraps-rate-limit composition. -/
theorem retried_attempts_not_rate_limited :
    attemptsOf (process_code_pipeline (rawAttempt bTimeout)).1 = 3 ∧
    rateChecksOf (process_code_pipeline (rawAttempt bTimeout)).1 = 1 :=
  ⟨rfl, rfl⟩

/-- Claim C3 (amended): the composition order is rate-limit wrapping retry
wrapping the call: every `process_code` invocation passes the 5-calls-per-
second limiter exactly once, regardless of how many attempts the retry layer
makes; moreover, since the body of `process_code` catches the network
exceptions itself, each invocation performs exactly one attempt. -/
theorem rate_limit_checked_once_per_invocation (b : Nat → Except PyExc String) :
    rateChecksOf (process_code_pipeline (rawAttempt b)).1 = 1 ∧
    rateChecksOf (process_code b).1 = 1 ∧
    attemptsOf (process_code b).1 = 1 := by
  refine ⟨?_, ?_, ?_⟩
  · simp [process_code_pipeline, limitsWrap, rateChecksOf_retry_rawAttempt]
  · obtain ⟨s, hs⟩ := processBody_ok b 0
    simp [process_code, process_code_pipeline, limitsWrap, retry_processBody, hs]
  · obtain ⟨s, hs⟩ := processBody_ok b 0
    simp [process_code, process_code_pipeline, limitsWrap, retry_processBody, hs]

/-- Claim C4: `process_code` never propagates an exception: for every
behavior of the underlying client call, the decorated call returns the first
attempt's outcome converted to a string — the response on success, the
synthetic `"Network error: ..."` string on a network-class exception, and
the `"Error: ..."` string on any other exception — so a chunk's request
failure never aborts the run. -/
theorem process_code_never_raises (b : Nat → Except PyExc String) :
    (process_code b).2 = .ok (match b 0 with
      | .ok s => s
      | .error e =>
        if isNetwork e then "Network error: " ++ excMsg e
        else "Error: " ++ excMsg e) := by
  simp only [process_code, process_code_pipeline, retry_processBody, limitsWrap, processBody]
  cases b 0 with
  | ok s => rfl
  | error e => cases hne : isNetwork e <;> simp [hne]

/-- Claim C5 counterexample: on the response `"[]"` — not a well-formed
instance of the documented JSON shape — `parse_issues` raises
`AttributeError` (only `json.JSONDecodeError` is caught, and `list.get` does
not exist) instead of returning an empty sequence. -/
theorem parse_issues_raises_on_json_array :
    parse_issues "[]" = .error PyExc.attributeError := rfl

/-- Claim C5 (amended): `parse_issues` does not raise on any response string
that fails JSON decoding — returning the empty sequence — nor on any string
that decodes to a JSON object; only a string decoding to a non-object JSON
value raises (`AttributeError`). -/
theorem parse_issues_no_raise_on_decode_failure_or_object (s : String)
    (h : responseShapeOk s = true) :
    exceptOk (parse_issues s) = true ∧
    (exceptOk (jsonLoads s) = false → parse_issues s = .ok (Json.arr [])) := by
  unfold responseShapeOk at h
  cases hj : jsonLoads s with
  | error e =>
    refine ⟨by simp [parse_issues, hj, exceptOk], fun _ => by simp [parse_issues, hj]⟩
  | ok v =>
    rw [hj] at h
    cases v with
    | null => simp at h
    | bool b2 => simp at h
    | num n2 => simp at h
    | str s2 => simp at h
    | arr xs => simp at h
    | obj kvs =>
      refine ⟨by simp [parse_issues, hj, exceptOk], ?_⟩
      intro hno
      simp [exceptOk] at hno

/-- Claim C5 witness: a non-JSON response string yields the empty sequence
without raising. -/
theorem parse_issues_no_raise_witness :
    exceptOk (parse_issues "oops") = true ∧
    (exceptOk (jsonLoads "oops") = false → parse_issues "oops" = .ok (Json.arr [])) :=
  parse_issues_no_raise_on_decode_failure_or_object "oops" rfl

/-- Claim C6: `retry` applied to an operation raising designated transient
exceptions performs `n` attempts with `1 ≤ n ≤ tries`; every non-final
attempt failed with a matching exception; it sleeps `delay` before the
second attempt, multiplying by `backoff` after each failed attempt (sleeps
are `delay * backoff ^ i`); a non-matching exception stops the attempts
immediately (when the budget is not exhausted the final attempt did not fail
with a matching exception, and its outcome — the non-matching error or the
success — propagates); and the final attempt's outcome is returned or
propagated unmodified, never replaced by a fallback. -/
theorem retry_policy_correct {α : Type u} (isMatch : PyExc → Bool)
    (b : Nat → Except PyExc α) (tries delay backoff : Nat) (htries : 1 ≤ tries)
    (r : List Event × Except PyExc α) (n : Nat)
    (hr : retry isMatch (rawAttempt b) 0 tries delay backoff = r)
    (hn : attemptsOf r.1 = n) :
    1 ≤ n ∧ n ≤ tries ∧
    r.2 = b (n - 1) ∧
    (∀ i, i + 1 < n → isMatchFail isMatch (b i) = true) ∧
    (n < tries → isMatchFail isMatch (b (n - 1)) = false) ∧
    sleepsOf r.1 = (List.range (n - 1)).map (fun i => delay * backoff ^ i) := by
  obtain ⟨h1, h2, h3, h4, h5, h6⟩ :=
    retry_rawAttempt_spec isMatch b backoff tries htries 0 delay r n hr hn
  refine ⟨h1, h2, by simpa using h3, ?_, by simpa using h5, h6⟩
  intro i hi
  simpa using h4 i hi

/-- Claim C6 witness: with `tries = 3`, `delay = 1`, `backoff = 2` and an
operation timing out on its first two attempts, the run makes exactly three
attempts, sleeps 1 then 2 seconds, and returns the third attempt's success
value. -/
theorem retry_policy_correct_witness :
    1 ≤ 3 ∧ 3 ≤ 3 ∧
    (Except.ok "done" : Except PyExc String) = bTimeout (3 - 1) ∧
    (∀ i, i + 1 < 3 → isMatchFail isNetwork (bTimeout i) = true) ∧
    (3 < 3 → isMatchFail isNetwork (bTimeout (3 - 1)) = false) ∧
    sleepsOf [Event.attempt 0, Event.slept 1, Event.attempt 1, Event.slept 2,
              Event.attempt 2]
      = (List.range (3 - 1)).map (fun i => 1 * 2 ^ i) :=
  retry_policy_correct isNetwork bTimeout 3 1 2 (by decide)
    ([Event.attempt 0, Event.slept 1, Event.attempt 1, Event.slept 2, Event.attempt 2],
     Except.ok "done") 3 rfl rfl

/-- Claim C7: concatenating in order all chunks of
`split_content content m` reproduces `content` exactly, for every content
and every `m ≥ 1`. -/
theorem split_content_reassembles (content : List Char) (m : Nat) (h : 1 ≤ m) :
    (split_content content m).flatten = content :=
  splitGo_flatten content.length content m (le_refl _) h

/-- Claim C7 witness. -/
theorem split_content_reassembles_witness :
    1 ≤ 3 ∧ (split_content "abcd".data 3).flatten = "abcd".data :=
  ⟨by decide, split_content_reassembles ("abcd".data) 3 (by decide)⟩

/-- Claim C8 counterexample: for the empty content — of length 0, hence of
length at most `max_length = 5` — `split_content` returns no chunks, not
exactly one chunk equal to the content. -/
theorem split_content_empty_not_single :
    ¬ split_content ([] : List Char) 5 = [[]] := by decide

/-- Claim C8 (amended): for `m ≥ 1`, non-empty content of length at most
`m` is returned as exactly one chunk equal to the content (the empty content
yields no chunks); content of length greater than `m` is returned as
`⌈length/m⌉` chunks in order, every chunk before the last of length exactly
`m` and the last of length at most `m`. -/
theorem split_content_chunk_shape (c : List Char) (m : Nat) (h : 1 ≤ m) :
    (c ≠ [] → c.length ≤ m → split_content c m = [c]) ∧
    (m < c.length →
      (split_content c m).length = (c.length + m - 1) / m ∧
      (∀ i, i + 1 < (split_content c m).length →
        ((split_content c m).getD i []).length = m) ∧
      (∀ ch, (split_content c m).getLast? = some ch → ch.length ≤ m)) := by
  constructor
  · intro hne hle
    exact splitGo_single c.length c m (le_refl _) h hne hle
  · intro _
    exact ⟨splitGo_length c.length c m (le_refl _) h,
           splitGo_full_chunks c.length c m (le_refl _) h,
           splitGo_last_le c.length c m (le_refl _) h⟩

/-- Claim C8 witness: seven characters with window 3 give chunks of sizes
3, 3, 1. -/
theorem split_content_chunk_shape_witness :
    1 ≤ 3 ∧
    (("abcdefg".data ≠ [] → "abcdefg".data.length ≤ 3 →
        split_content "abcdefg".data 3 = ["abcdefg".data]) ∧
     (3 < "abcdefg".data.length →
       (split_content "abcdefg".data 3).length = ("abcdefg".data.length + 3 - 1) / 3 ∧
       (∀ i, i + 1 < (split_content "abcdefg".data 3).length →
         ((split_content "abcdefg".data 3).getD i []).length = 3) ∧
       (∀ ch, (split_content "abcdefg".data 3).getLast? = some ch → ch.length ≤ 3))) :=
  ⟨by decide, split_content_chunk_shape ("abcdefg".data) 3 (by decide)⟩

/-- Claim C9: for every response string decoding to a JSON object,
`parse_issues` returns exactly the object's `issues` value — the findings
verbatim, unvalidated and in input order — and the empty sequence when the
`issues` key is absent. -/
theorem parse_issues_object_passthrough (s : String) (kvs : List (String × Json))
    (h : jsonLoads s = .ok (Json.obj kvs)) :
    (∀ v, dictLookupLast kvs issuesKey = some v → parse_issues s = .ok v) ∧
    (dictLookupLast kvs issuesKey = none → parse_issues s = .ok (Json.arr [])) := by
  constructor
  · intro v hv
    simp [parse_issues, h, dictGet, hv]
  · intro hv
    simp [parse_issues, h, dictGet, hv]

/-- Claim C9 witness: a response with two findings parses to exactly those
two findings, fields untouched, in input order. -/
theorem parse_issues_object_passthrough_witness :
    parse_issues respTwoIssues = .ok issuesTwo :=
  (parse_issues_object_passthrough respTwoIssues [(issuesKey, issuesTwo)] rfl).1
    issuesTwo rfl

/-- Claim C10: for every `m ≥ 1`, `split_content` on the empty string
returns an empty list of chunks, not a single empty chunk. -/
theorem split_content_empty_input (m : Nat) (_h : 1 ≤ m) :
    split_content [] m = [] := rfl

/-- Claim C10 witness. -/
theorem split_content_empty_input_witness :
    1 ≤ 7 ∧ split_content [] 7 = [] :=
  ⟨by decide, split_content_empty_input 7 (by decide)⟩
